import Mathlib

/-!
Verification of the IDP asynchronous document-processing pipeline.

This file gives a shallow embedding, in Lean, of the core of the
repository: the consensus resolver and strategy dispatch of
app/services/ai_orchestrator.py, the cascade batching of the same file,
the blob-download retry loop and the queue-consumption state machine of
app/services/background_worker.py, and the dead-letter routing of
app/services/queue_storage_service.py.  Python dictionaries holding
extraction results are modelled as association lists over a small JSON
value type; effectful calls to external capabilities (blob store, the
two AI backends, Cosmos DB, the queue) are modelled as explicit oracle
parameters; wall-clock timestamps are omitted.
-/

/-- JSON-style value stored in an extraction dictionary.  Python None is
the constructor JVal.null. -/
inductive JVal where
  | null : JVal
  | num : Int → JVal
  | str : String → JVal
  | bool : Bool → JVal
deriving DecidableEq, Repr

/-- Association-list lookup, modelling Python dict.get: first binding of
the key wins (dict keys are unique, so this is exact). -/
def alGet {α : Type} : List (String × α) → String → Option α
  | [], _ => none
  | (k, v) :: rest, key => if k = key then some v else alGet rest key

/-- Association-list store, modelling Python dict assignment: replaces the
binding in place if the key is present, appends it otherwise. -/
def alSet {α : Type} : List (String × α) → String → α → List (String × α)
  | [], key, v => [(key, v)]
  | (k, w) :: rest, key, v =>
      if k = key then (key, v) :: rest else (k, w) :: alSet rest key v

/-- Membership test, modelling the Python expression key in dict. -/
def alHas {α : Type} (m : List (String × α)) (key : String) : Bool :=
  (alGet m key).isSome

/-- An extraction result dictionary: field name to JSON value. -/
abbrev ExtMap := List (String × JVal)

theorem alGet_alSet_self {α : Type} (m : List (String × α)) (k : String) (v : α) :
    alGet (alSet m k v) k = some v := by
  induction m with
  | nil => simp [alSet, alGet]
  | cons hd tl ih =>
      by_cases h : hd.1 = k
      · simp [alSet, h, alGet]
      · simp [alSet, h, alGet, ih]

theorem alGet_alSet_ne {α : Type} (m : List (String × α)) (k k1 : String) (v : α)
    (h : k1 ≠ k) : alGet (alSet m k v) k1 = alGet m k1 := by
  induction m with
  | nil => simp [alSet, alGet, Ne.symm h]
  | cons hd tl ih =>
      by_cases hh : hd.1 = k
      · simp [alSet, hh, alGet, Ne.symm h]
      · simp [alSet, hh, alGet, ih]

/-- Field definition supplied by the caller (app/models/request.py
FieldDefinition): name, type, description. -/
structure FieldDefinition where
  name : String
  type : String
  description : String
deriving DecidableEq, Repr

/-- Per-field extraction output (app/models/response.py ExtractionField).
Confidence is a rational in place of the Python float: the source only
ever assigns and compares the literals 0.0, 0.75, 0.8, 0.85, 0.9, 0.95,
which are exact in both representations. -/
structure ExtractionField where
  name : String
  value : Option JVal
  confidence : ℚ
  review_required : Bool
  source_strategy : String
  extraction_time_ms : Nat
deriving DecidableEq, Repr

/-- Strategy-level result (ai_orchestrator.py dataclass ExtractionResult). -/
structure ExtractionResult where
  extraction_data : List ExtractionField
  pages_processed : Nat
  review_flags : List String
  processing_time_ms : Nat
  strategy_used : String
deriving DecidableEq, Repr

/-- AIOrchestrator.get_field_value: result.get(field_name), with a stored
null collapsing to Python None exactly as the later is-not-None tests see
it. -/
def getFieldValue (result : ExtMap) (field_name : String) : Option JVal :=
  match alGet result field_name with
  | some v => if v = JVal.null then none else some v
  | none => none

/-- Value a backend contributes in dual mode: None when the gathered task
returned an exception (background of isinstance checks in
AIOrchestrator.process_dual_service). -/
def dualFieldValue (result : Except String ExtMap) (field_name : String) : Option JVal :=
  match result with
  | .ok m => getFieldValue m field_name
  | .error _ => none

/-- AIOrchestrator.create_consensus_field, translated case by case from
ai_orchestrator.py lines 556-596. -/
def createConsensusField (field_name : String)
    (openai_value doc_intelligence_value : Option JVal) : ExtractionField :=
  match openai_value, doc_intelligence_value with
  | some a, some b =>
      if a = b then
        ⟨field_name, some a, 95/100, false, "dual_service", 0⟩
      else
        ⟨field_name, some a, 8/10, true, "dual_service", 0⟩
  | some a, none => ⟨field_name, some a, 85/100, false, "dual_service", 0⟩
  | none, some b => ⟨field_name, some b, 75/100, false, "dual_service", 0⟩
  | none, none => ⟨field_name, none, 0, true, "dual_service", 0⟩

/-- Loose rendering of Python str() on a JSON value, used only inside
review-flag and prompt text. -/
def jstr : JVal → String
  | .null => "None"
  | .num n => toString n
  | .str s => s
  | .bool b => if b then "True" else "False"

/-- Review flag appended by AIOrchestrator.process_dual_service when the
two backends disagree on a field (quotation marks of the Python f-string
omitted). -/
def dualDiscrepFlag (field_name : String) : String :=
  "Discrepancia en campo " ++ field_name ++ " entre servicios"

/-- AIOrchestrator.process_dual_service (lines 99-151): both backend
outcomes are given as Except values, matching the gather call with
return_exceptions=True; a backend that raised contributes None for every
field and the function always returns a plain result. -/
def processDualService (openai_result doc_intelligence_result : Except String ExtMap)
    (fields : List FieldDefinition) : ExtractionResult :=
  { extraction_data :=
      fields.map fun field =>
        createConsensusField field.name
          (dualFieldValue openai_result field.name)
          (dualFieldValue doc_intelligence_result field.name)
  , pages_processed := 1
  , review_flags :=
      fields.filterMap fun field =>
        match dualFieldValue openai_result field.name,
              dualFieldValue doc_intelligence_result field.name with
        | some a, some b => if a ≠ b then some (dualDiscrepFlag field.name) else none
        | _, _ => none
  , processing_time_ms := 0
  , strategy_used := "dual_service" }

/-- Review flag texts of AIOrchestrator.process_hybrid_consensus
(quotation marks of the Python f-strings omitted). -/
def hybridDiscrepFlag (field_name : String) (a b : JVal) : String :=
  "Discrepancia en " ++ field_name ++ ": OpenAI=" ++ jstr a ++ ", DI=" ++ jstr b

def hybridSoloDIFlag (field_name : String) : String :=
  "Campo " ++ field_name ++ " solo extraído por Document Intelligence"

def hybridNoneFlag (field_name : String) : String :=
  "Campo " ++ field_name ++ " no extraído por ningún servicio"

/-- Per-field body of the loop in AIOrchestrator.process_hybrid_consensus
(lines 213-257): the consensus field together with the review flags that
iteration appends. -/
def hybridConsensusField (field_name : String)
    (openai_value doc_intelligence_value : Option JVal) :
    ExtractionField × List String :=
  match openai_value, doc_intelligence_value with
  | some a, some b =>
      if a = b then
        (⟨field_name, some a, 95/100, false, "hybrid_consensus", 0⟩, [])
      else
        (⟨field_name, some a, 8/10, true, "hybrid_consensus", 0⟩,
          [hybridDiscrepFlag field_name a b])
  | some a, none => (⟨field_name, some a, 85/100, false, "hybrid_consensus", 0⟩, [])
  | none, some b =>
      (⟨field_name, some b, 75/100, true, "hybrid_consensus", 0⟩,
        [hybridSoloDIFlag field_name])
  | none, none =>
      (⟨field_name, none, 0, true, "hybrid_consensus", 0⟩, [hybridNoneFlag field_name])

/-- AIOrchestrator.process_hybrid_consensus (lines 195-265): the two
backends are called sequentially and an exception from either one
propagates out of the strategy. -/
def processHybridConsensus (openai_result doc_intelligence_result : Except String ExtMap)
    (fields : List FieldDefinition) : Except String ExtractionResult :=
  match openai_result with
  | .error e => .error e
  | .ok om =>
    match doc_intelligence_result with
    | .error e => .error e
    | .ok dm =>
      .ok
        { extraction_data :=
            fields.map fun field =>
              (hybridConsensusField field.name
                (getFieldValue om field.name) (getFieldValue dm field.name)).1
        , pages_processed := 1
        , review_flags :=
            (fields.map fun field =>
              (hybridConsensusField field.name
                (getFieldValue om field.name) (getFieldValue dm field.name)).2).flatten
        , processing_time_ms := 0
        , strategy_used := "hybrid_consensus" }

/-- Keys skipped by the cascade merge and by the reference-prompt
formatter (ai_orchestrator.py lines 487 and 500). -/
def metaKeys : List String := ["pages_processed", "_rid", "_etag", "_ts"]

/-- One iteration of the loop in AIOrchestrator.merge_extractions:
metadata keys are skipped, an existing key is overwritten only by a
non-null value, a new key is stored even when null. -/
def mergeStep (merged : ExtMap) (kv : String × JVal) : ExtMap :=
  if kv.1 ∈ metaKeys then merged
  else if alHas merged kv.1 then
    (if kv.2 ≠ JVal.null then alSet merged kv.1 kv.2 else merged)
  else alSet merged kv.1 kv.2

/-- AIOrchestrator.merge_extractions (lines 494-516).  The surrounding
try/except cannot fire: the body only performs dict operations. -/
def mergeExtractions (base new : ExtMap) : ExtMap :=
  new.foldl mergeStep base

/-- AIOrchestrator.format_extraction_for_prompt (lines 482-492): one line
per non-metadata, non-null key. -/
def formatExtractionForPrompt (extraction : ExtMap) : String :=
  String.intercalate "\n"
    ((extraction.filter fun kv =>
        decide (kv.1 ∉ metaKeys) && decide (kv.2 ≠ JVal.null)).map
      fun kv => "- " ++ kv.1 ++ ": " ++ jstr kv.2)

/-- AIOrchestrator.build_fields_description (lines 542-547). -/
def buildFieldsDescription (fields : List FieldDefinition) : String :=
  fields.foldl
    (fun acc field =>
      acc ++ "- " ++ field.name ++ " (" ++ field.type ++ "): " ++ field.description ++ "\n")
    "Campos a extraer:\n"

/-- The multi-page instruction block appended by
AIOrchestrator.process_single_batch (lines 398-409); the literal Spanish
instruction text is abbreviated, keeping the page count interpolation the
source performs. -/
def enhancedPrompt (full_prompt : String) (page_count : Nat) : String :=
  full_prompt ++ "\n\nINSTRUCCIONES ESPECIALES PARA MULTIPLES PAGINAS: analiza las " ++
    toString page_count ++ " paginas del mismo documento y consolida la informacion de todas"

/-- The context-carrying prompt built by
AIOrchestrator.process_cascade_batches (lines 454-465) for every batch
after the first: the general prompt, the formatted accumulated
extraction, and the complement-and-correct instructions (abbreviated). -/
def referencePrompt (prompt_general : String) (accumulated : ExtMap) : String :=
  prompt_general ++ "\n\nINFORMACION EXTRAIDA ANTERIORMENTE:\n" ++
    formatExtractionForPrompt accumulated ++
    "\n\nINSTRUCCIONES ESPECIALES: complementa la informacion anterior"

/-- One backend invocation as observed by the page-image cascade: the
pages sent and the prompt used. -/
structure CallLog where
  pages : List String
  prompt : String
deriving DecidableEq, Repr

/-- AIOrchestrator.process_single_batch (lines 352-430), with the backend
call abstracted as the function argument and the invocation recorded.
Pages are taken to be base64 image strings already, which is the branch
the OfficeConverter and DocumentConverter outputs exercise; the source
raises on an empty page list, a case excluded by hypothesis where it
matters. -/
def processSingleBatch (call : List String → String → ExtMap)
    (images : List String) (fields : List FieldDefinition) (prompt : String) :
    ExtMap × List CallLog :=
  let fullPrompt := prompt ++ "\n\n" ++ buildFieldsDescription fields
  let ep := enhancedPrompt fullPrompt images.length
  let response := call images ep
  ( alSet
      (alSet
        (alSet response "multi_page_analysis" (JVal.bool true))
        "total_pages_analyzed" (JVal.num images.length))
      "pages_processed" (JVal.num images.length)
  , [⟨images, ep⟩] )

/-- Consecutive five-page slices, matching images[batch_idx:batch_idx+5]
for batch_idx stepping by 5 in process_cascade_batches. -/
def chunksOf5 {α : Type} : List α → List (List α)
  | [] => []
  | a :: l => (a :: l).take 5 :: chunksOf5 ((a :: l).drop 5)
termination_by l => l.length
decreasing_by simp [List.length_drop]; omega

/-- The loop of AIOrchestrator.process_cascade_batches (lines 447-470):
each batch is processed with a reference prompt built from the current
accumulator and its output merged in. -/
def cascadeLoop (call : List String → String → ExtMap) (fields : List FieldDefinition)
    (prompt_general : String) :
    ExtMap × List CallLog → List (List String) → ExtMap × List CallLog
  | acc, [] => acc
  | (accMap, accLog), batch :: rest =>
      let rp := referencePrompt prompt_general accMap
      let (batchExtraction, l1) := processSingleBatch call batch fields rp
      cascadeLoop call fields prompt_general
        (mergeExtractions accMap batchExtraction, accLog ++ l1) rest

/-- AIOrchestrator.process_cascade_batches (lines 432-480). -/
def processCascadeBatches (call : List String → String → ExtMap)
    (images : List String) (fields : List FieldDefinition) (prompt_general : String) :
    ExtMap × List CallLog :=
  let r0 := processSingleBatch call (images.take 5) fields prompt_general
  let r := cascadeLoop call fields prompt_general r0 (chunksOf5 (images.drop 5))
  (alSet r.1 "pages_processed" (JVal.num images.length), r.2)

/-- AIOrchestrator.process_with_openai_cascade (lines 298-350), after the
document has been rendered to page images: at most five pages go out in
one request, more pages take the cascade path. -/
def processWithOpenaiCascade (call : List String → String → ExtMap)
    (images : List String) (fields : List FieldDefinition) (prompt_general : String) :
    ExtMap × List CallLog :=
  if images.length ≤ 5 then processSingleBatch call images fields prompt_general
  else processCascadeBatches call images fields prompt_general

/-- AIOrchestrator.process_gpt_vision_only (lines 153-193): wraps the
cascade result map into per-field outputs at fixed confidence 0.9. -/
def processGptVisionOnly (cascade_result : Except String ExtMap)
    (fields : List FieldDefinition) : Except String ExtractionResult :=
  match cascade_result with
  | .error e => .error e
  | .ok result =>
      .ok
        { extraction_data :=
            fields.map fun field =>
              ⟨field.name, getFieldValue result field.name, 9/10, false,
                "gpt_vision_only_cascade", 0⟩
        , pages_processed :=
            (match alGet result "pages_processed" with
             | some (JVal.num n) => n.toNat
             | _ => 1)
        , review_flags := []
        , processing_time_ms := 0
        , strategy_used := "gpt_vision_only_cascade" }

/-- The strategy dispatch of AIOrchestrator.process_document (lines
42-97), with each backend outcome supplied as an oracle: openai and
doc-intelligence single-shot outcomes for the dual and hybrid paths, the
cascade outcome for the vision path.  An unrecognized mode raises. -/
def orchestratorProcess (processing_mode : String)
    (openai_result doc_intelligence_result cascade_result : Except String ExtMap)
    (fields : List FieldDefinition) : Except String ExtractionResult :=
  if processing_mode = "dual_service" then
    .ok (processDualService openai_result doc_intelligence_result fields)
  else if processing_mode = "gpt_vision_only" then
    processGptVisionOnly cascade_result fields
  else if processing_mode = "hybrid_consensus" then
    processHybridConsensus openai_result doc_intelligence_result fields
  else
    .error ("Modo de procesamiento no soportado: " ++ processing_mode)

/-- Python int() applied to a non-negative rational truncates toward
zero, which is the floor; the worker only applies it to non-negative
delays but the negative case is kept for fidelity. -/
def pyInt (q : ℚ) : Int :=
  if 0 ≤ q then q.floor else -((-q).floor)

/-- The three download-retry settings the worker reads from
configuration (they are referenced as settings.azure_blob_retry_delay_seconds,
azure_blob_max_retries and azure_blob_retry_backoff_factor). -/
structure RetryConfig where
  initialDelay : ℚ
  backoffFactor : ℚ
  maxRetries : Nat
deriving Repr

/-- Outcome of one download attempt against the blob store: truthy
content, a falsy (None or empty) return, or a raised exception. -/
inductive AttemptRes where
  | success : Nat → AttemptRes
  | empty : AttemptRes
  | failure : String → AttemptRes
deriving DecidableEq, Repr

/-- Observable outcome of one execution of the download-retry block of
BackgroundWorker.process_document (lines 174-226): the result, every
sleep performed in order, and the final value of the total_wait_time
accumulator. -/
structure DownloadRun where
  result : Except String Nat
  sleeps : List ℚ
  totalWait : ℚ
deriving Repr

/-- The retry loop body (lines 182-214): i is the current attempt index,
k the number of attempts remaining.  A failure on any attempt but the
last sleeps int(initial_delay * backoff_factor ** attempt) and adds that
delay to total_wait_time; a failure on the last attempt re-raises the
download error; a falsy download result merely moves to the next
attempt; after the loop, missing content raises. -/
def downloadLoop (cfg : RetryConfig) (attempts : Nat → AttemptRes) :
    Nat → Nat → ℚ → List ℚ → DownloadRun
  | _, 0, tw, sl => ⟨.error "Documento descargado está vacío o es None", sl, tw⟩
  | i, k + 1, tw, sl =>
      match attempts i with
      | .success n => ⟨.ok n, sl, tw⟩
      | .empty => downloadLoop cfg attempts (i + 1) k tw sl
      | .failure msg =>
          if k = 0 then ⟨.error msg, sl, tw⟩
          else
            let d : ℚ := (pyInt (cfg.initialDelay * cfg.backoffFactor ^ i) : Int)
            downloadLoop cfg attempts (i + 1) k (tw + d) (sl ++ [d])

/-- The whole download block, lines 174-226: one unconditional
initial-delay sleep, then the bounded retry loop starting at attempt 0
with total_wait_time 0. -/
def runDownload (cfg : RetryConfig) (attempts : Nat → AttemptRes) : DownloadRun :=
  downloadLoop cfg attempts 0 cfg.maxRetries 0 [cfg.initialDelay]

/-- The delays slept after each failing attempt when every attempt
raises: int(initial_delay * backoff_factor ** attempt) for the first
k - 1 of k remaining attempts starting at attempt i. -/
def failSleeps (cfg : RetryConfig) (i k : Nat) : List ℚ :=
  (List.range (k - 1)).map fun j =>
    ((pyInt (cfg.initialDelay * cfg.backoffFactor ^ (i + j)) : Int) : ℚ)

/-- The update_data payload BackgroundWorker.update_job_status assembles
(background_worker.py lines 653-674): status always; error_message only
for a failed status; processing_time_ms and fields_extracted only for a
completed status (the wall-clock updated_at, completed_at, started_at and
failed_at entries and the document_id and extraction_id references are
omitted). -/
structure UpdateData where
  status : String
  error_message : Option String
  processing_time_ms : Option Nat
  fields_extracted : Option Nat
deriving DecidableEq, Repr

/-- Assemble update_data exactly as lines 653-674 do for each status. -/
def mkUpdateData (status : String) (error_message : Option String)
    (processing_time_ms fields_extracted : Option Nat) : UpdateData :=
  if status = "completed" then
    ⟨status, none, some (processing_time_ms.getD 0), some (fields_extracted.getD 0)⟩
  else if status = "failed" then
    ⟨status, error_message, none, none⟩
  else
    ⟨status, none, none, none⟩

/-- Job record stored in the processing-jobs container, restricted to the
fields the modelled code reads or writes and that do not carry wall-clock
time.  The record has two identifiers: rid is the Cosmos record id that
CosmosService.create_processing_job assigns (the string job_ followed by
a fresh uuid, cosmos_service.py line 301), which is what
update_job_status queries by; the worker-facing job id is the
association key of World.jobs, under which the spec-modelled
get_processing_job finds the record through its job_id field.  The
progress field holds whatever CosmosService.update_job_status nests
under the progress key. -/
structure JobRec where
  rid : String
  status : String
  error_message : Option String
  processing_time_ms : Option Nat
  fields_extracted : Option Nat
  progress : Option UpdateData
deriving DecidableEq, Repr

/-- Content of a queue message as read by
BackgroundWorker.process_document: job id, blob path, processing mode,
prompt, fields, persistence flag and the retry_count the dead-letter
routing increments. -/
structure MsgContent where
  job_id : String
  blob_path : String
  processing_mode : String
  prompt_general : String
  fields : List FieldDefinition
  filename : String
  retry_count : Nat
deriving DecidableEq, Repr

/-- A message sitting in the main queue. -/
structure QueueMsg where
  message_id : String
  pop_receipt : String
  content : MsgContent
deriving DecidableEq, Repr

/-- A dead-letter message as built by
QueueStorageService.move_to_failed_queue (lines 320-369): all original
message fields plus error metadata (failed_at is a wall-clock timestamp
and is omitted). -/
structure FailedMsg where
  content : MsgContent
  error_message : String
  original_queue : String
  retry_count : Nat
deriving DecidableEq, Repr

/-- Shared mutable state the worker acts on: the job records in Cosmos
DB and the two queues.  Blob storage is not included: no claim under
verification observes it. -/
structure World where
  jobs : List (String × JobRec)
  mainQueue : List QueueMsg
  failedQueue : List FailedMsg
deriving DecidableEq, Repr

/-- Oracle for every fallible external interaction one worker iteration
performs.  A field set to false injects the corresponding fault. -/
structure Faults where
  /-- Modelled from the spec: CosmosService.get_processing_job is called
  by the worker but absent from the repository; per the Job Store adapter
  contract it reads the job record by id, returning it or None, and may
  raise on a database error, which this flag injects for every read of
  the current iteration. -/
  cosmosReadFails : Bool
  /-- Whether the CosmosService.update_job_status call runs without a
  database error (its catch-all turns any raised error into a False
  return); whether the update then actually lands additionally requires
  its record-id query to match, which cosmosUpdateJobStatus models. -/
  cosmosUpdateOk : Bool
  /-- Whether CosmosService.create_processing_job succeeds; on failure it
  returns None, which the worker does not check. -/
  cosmosCreateOk : Bool
  /-- The fresh Cosmos record id (job_ followed by a uuid) that
  create_processing_job would assign to a record created in this
  iteration. -/
  freshId : String
  /-- Per-attempt outcome of BlobStorageService.download_document. -/
  attempts : Nat → AttemptRes
  /-- Outcome of AIOrchestrator.process_document. -/
  aiResult : Except String ExtractionResult
  /-- Outcome of CosmosService.save_document: document id, None, or a
  raised error. -/
  saveDocResult : Except String (Option String)
  /-- Outcome of CosmosService.save_extraction_result. -/
  saveExtResult : Except String (Option String)
  /-- Whether BlobStorageService.move_to_processed succeeds. -/
  moveToProcessedOk : Bool
  /-- Modelled from the spec: get_document_by_job_id and
  get_extraction_by_job_id, called in the reconciliation block but absent
  from the repository; per the spec they report whether the document and
  extraction records exist.  verifyError injects a raised error in that
  check. -/
  docExists : Bool
  extExists : Bool
  verifyError : Option String
  /-- Extraction-data length reported by the reconciliation read. -/
  verifyFieldCount : Nat
  /-- Whether QueueStorageService.send_message to the failed queue
  succeeds (move_to_failed_queue otherwise returns None). -/
  queueSendOk : Bool
  /-- Whether QueueStorageService.delete_message succeeds (it returns
  False otherwise and the message stays). -/
  queueDeleteOk : Bool
  /-- Wall-clock processing time the worker measures, as an opaque value. -/
  elapsedMs : Nat

/-- BackgroundWorker.get_job_status (lines 611-634): the record's status
field when the job is found, not_found when the read returns None, error
when the read raises; the except block converts every raised error. -/
def workerGetJobStatus (world : World) (f : Faults) (job_id : String) : String :=
  if f.cosmosReadFails then "error"
  else
    match alGet world.jobs job_id with
    | some job => job.status
    | none => "not_found"

/-- Replace the first record whose Cosmos record id matches the queried
id, writing only the new status top-level and nesting the dict bound to
the progress parameter under the progress key, exactly as
cosmos_service.py lines 361-375 do. -/
def replaceByRid : List (String × JobRec) → String → String → UpdateData →
    List (String × JobRec)
  | [], _, _, _ => []
  | kv :: rest, rid, status, pd =>
      if kv.2.rid = rid then
        (kv.1, { kv.2 with status := status, progress := some pd }) :: rest
      else kv :: replaceByRid rest rid status pd

/-- CosmosService.update_job_status (cosmos_service.py lines 327-375) as
the worker invokes it: the call update_job_status(job_id, status,
update_data) at background_worker.py line 680 binds the worker's
update_data dict to the progress parameter.  The query looks the record
up by its record id (c.id = @job_id); on a match the code writes status
(and the omitted updated_at) top-level and stores the progress argument
under the progress key — the error_message, processing_time_ms and
fields_extracted entries of update_data never reach the top-level record
fields.  A query miss, or any database error (injected by
cosmosUpdateOk = false), returns False, modelled as none. -/
def cosmosUpdateJobStatus (jobs : List (String × JobRec)) (f : Faults)
    (job_id status : String) (pd : UpdateData) : Option (List (String × JobRec)) :=
  if f.cosmosUpdateOk then
    if jobs.any (fun kv => kv.2.rid = job_id) then
      some (replaceByRid jobs job_id status pd)
    else none
  else none

/-- The record BackgroundWorker.update_job_status creates when the job
does not exist (lines 689-707): create_processing_job keys it under a
fresh record id, supplied here by the freshId oracle; note the create
branch stores no error message even for a failed status. -/
def newJobRec (rid status : String) (processing_time_ms fields_extracted : Option Nat) :
    JobRec :=
  { rid := rid
  , status := status
  , error_message := none
  , processing_time_ms :=
      if status = "completed" then some (processing_time_ms.getD 0) else none
  , fields_extracted :=
      if status = "completed" then some (fields_extracted.getD 0) else none
  , progress := none }

/-- The body of BackgroundWorker.update_job_status (lines 636-710) before
its catch-all except: the spec-modelled read may raise; on an existing
record the write goes through CosmosService.update_job_status, whose
False return raises; a create failure is silent because the worker never
checks create_processing_job's return value. -/
def updateJobStatusExc (world : World) (f : Faults) (job_id status : String)
    (error_message : Option String) (processing_time_ms fields_extracted : Option Nat) :
    Except String World :=
  if f.cosmosReadFails then .error "Error consultando el job en Cosmos DB"
  else
    match alGet world.jobs job_id with
    | some _ =>
        match cosmosUpdateJobStatus world.jobs f job_id status
                (mkUpdateData status error_message processing_time_ms fields_extracted) with
        | some jobs2 => .ok { world with jobs := jobs2 }
        | none => .error ("Error actualizando estado del job en Cosmos DB: " ++ job_id)
    | none =>
        if f.cosmosCreateOk then
          .ok { world with
                  jobs := world.jobs ++
                    [(job_id,
                      newJobRec f.freshId status processing_time_ms fields_extracted)] }
        else .ok world

/-- BackgroundWorker.update_job_status as its callers see it: the
catch-all except swallows every error, leaving the store as it was. -/
def updateJobStatusRun (world : World) (f : Faults) (job_id status : String)
    (error_message : Option String) (processing_time_ms fields_extracted : Option Nat) :
    World :=
  match updateJobStatusExc world f job_id status error_message
          processing_time_ms fields_extracted with
  | .ok w => w
  | .error _ => world

/-- Result of BackgroundWorker.process_document as seen by
process_queue: the completed or skipped return value, or a raised
exception with its message. -/
inductive ProcResult where
  | completed : ProcResult
  | skipped : ProcResult
  | failed : String → ProcResult
deriving DecidableEq, Repr

/-- The reconciliation block in the finally clause of
BackgroundWorker.process_document (lines 559-606), run whenever
processing got past the idempotency guard: if the job still reads
processing, it is repaired to completed when both records exist and to
failed otherwise; a raised verification error marks the job failed; the
status read and the status writes swallow their own errors, so the
outer except of the block is unreachable. -/
def runFinally (world : World) (f : Faults) (job_id : String) : World :=
  if workerGetJobStatus world f job_id = "processing" then
    match f.verifyError with
    | some m =>
        updateJobStatusRun world f job_id "failed"
          (some ("Error de verificación: " ++ m)) none none
    | none =>
        if f.docExists && f.extExists then
          updateJobStatusRun world f job_id "completed" none
            (some 0) (some f.verifyFieldCount)
        else
          updateJobStatusRun world f job_id "failed"
            (some "Job incompleto - faltan datos") none none
  else world

/-- The except branch of BackgroundWorker.process_document (lines
539-557) followed by its finally block: mark the job failed with the
error text, then reconcile, then re-raise. -/
def failPath (world : World) (f : Faults) (job_id e : String) : ProcResult × World :=
  let w := updateJobStatusRun world f job_id "failed" (some e) none none
  (ProcResult.failed e, runFinally w f job_id)

/-- Error text produced when CosmosService.save_document or
save_extraction_result fails (lines 292-302 and 327-337): a raised error
is wrapped with the step's prefix; a None return raises the bare prefix
inside the same try, so it is caught and wrapped again by its own
except. -/
def saveOutcome (r : Except String (Option String)) (prefixText : String) :
    Except String String :=
  match r with
  | .error m => .error (prefixText ++ ": " ++ m)
  | .ok none => .error (prefixText ++ ": " ++ prefixText)
  | .ok (some i) => .ok i

/-- BackgroundWorker.process_document (lines 119-609).  Step 0 is the
idempotency guard; step 1 marks the job processing; step 2 is the
retrying download; step 3 the AI orchestrator call, whose error is
wrapped; step 4 the two Cosmos saves; steps 5 and 7 mark the job
completed (twice, the move-to-processed failure between them being
tolerated); step 9's cleanup touches only blob storage and is not part
of the modelled state; the finally block reconciles.  Every failure
after the guard goes through failPath. -/
def workerProcessDocument (cfg : RetryConfig) (world : World) (f : Faults)
    (content : MsgContent) : ProcResult × World :=
  let jid := content.job_id
  if workerGetJobStatus world f jid ≠ "pending" then (ProcResult.skipped, world)
  else
    let w1 := updateJobStatusRun world f jid "processing" none none none
    match (runDownload cfg f.attempts).result with
    | .error e => failPath w1 f jid e
    | .ok _ =>
      match f.aiResult with
      | .error m => failPath w1 f jid ("Error en AI Orchestrator: " ++ m)
      | .ok extraction =>
        match saveOutcome f.saveDocResult "Error guardando documento en Cosmos DB" with
        | .error m => failPath w1 f jid m
        | .ok _ =>
          match saveOutcome f.saveExtResult
                  "Error guardando resultado de extracción en Cosmos DB" with
          | .error m => failPath w1 f jid m
          | .ok _ =>
            let n := extraction.extraction_data.length
            let w2 := updateJobStatusRun w1 f jid "completed" none
                        (some f.elapsedMs) (some n)
            let w3 := updateJobStatusRun w2 f jid "completed" none
                        (some f.elapsedMs) (some n)
            (ProcResult.completed, runFinally w3 f jid)

/-- QueueStorageService.delete_message (lines 237-273): on success the
message disappears from the main queue, on any error the call returns
False and the queue is unchanged. -/
def deleteMessage (world : World) (f : Faults) (message_id : String) : World :=
  if f.queueDeleteOk then
    { world with mainQueue := world.mainQueue.filter fun q => q.message_id ≠ message_id }
  else world

/-- QueueStorageService.move_to_failed_queue (lines 320-369): appends the
original message fields plus failure metadata to the failed queue;
original_queue defaults to the service's document-processing queue name
and retry_count is the original count plus one.  On a send error the
call returns None and no message is published. -/
def moveToFailedQueue (world : World) (f : Faults) (content : MsgContent)
    (error_message : String) : World :=
  if f.queueSendOk then
    { world with
        failedQueue := world.failedQueue ++
          [⟨content, error_message, "document-processing-queue", content.retry_count + 1⟩] }
  else world

/-- One iteration of BackgroundWorker.process_queue (lines 63-117): take
the first visible message; a completed or skipped processing result just
acks it; a raised error publishes to the dead-letter queue, acks the
original message and marks the job failed. -/
def processQueue (cfg : RetryConfig) (world : World) (f : Faults) : World :=
  match world.mainQueue with
  | [] => world
  | m :: _ =>
    let pr := workerProcessDocument cfg world f m.content
    match pr.1 with
    | .completed => deleteMessage pr.2 f m.message_id
    | .skipped => deleteMessage pr.2 f m.message_id
    | .failed e =>
        let w2 := moveToFailedQueue pr.2 f m.content e
        let w3 := deleteMessage w2 f m.message_id
        updateJobStatusRun w3 f m.content.job_id "failed" (some e) none none

/-- C2: consensus resolution, two-source and zero-source cases.  For a
field of the requested list: agreeing non-null values give that value at
confidence 0.95 without review; disagreeing non-null values give the
OpenAI value at confidence 0.8 with review required and a discrepancy
flag in the strategy's review list; two missing values give null at
confidence 0.0 with review required.  Stated for both strategies that
merge two source maps. -/
theorem C2_consensus_two_and_zero_source
    (fields : List FieldDefinition) (field : FieldDefinition)
    (o d : Except String ExtMap) (om dm : ExtMap)
    (hmem : field ∈ fields) :
    (∀ a, dualFieldValue o field.name = some a → dualFieldValue d field.name = some a →
      createConsensusField field.name (dualFieldValue o field.name)
          (dualFieldValue d field.name) =
        ⟨field.name, some a, 95/100, false, "dual_service", 0⟩) ∧
    (∀ a b, dualFieldValue o field.name = some a → dualFieldValue d field.name = some b →
      a ≠ b →
      createConsensusField field.name (dualFieldValue o field.name)
          (dualFieldValue d field.name) =
        ⟨field.name, some a, 8/10, true, "dual_service", 0⟩ ∧
      dualDiscrepFlag field.name ∈ (processDualService o d fields).review_flags) ∧
    (dualFieldValue o field.name = none → dualFieldValue d field.name = none →
      createConsensusField field.name (dualFieldValue o field.name)
          (dualFieldValue d field.name) =
        ⟨field.name, none, 0, true, "dual_service", 0⟩) ∧
    (createConsensusField field.name (dualFieldValue o field.name)
        (dualFieldValue d field.name) ∈ (processDualService o d fields).extraction_data) ∧
    (∀ a, getFieldValue om field.name = some a → getFieldValue dm field.name = some a →
      (hybridConsensusField field.name (getFieldValue om field.name)
          (getFieldValue dm field.name)).1 =
        ⟨field.name, some a, 95/100, false, "hybrid_consensus", 0⟩) ∧
    (∀ a b r, getFieldValue om field.name = some a → getFieldValue dm field.name = some b →
      a ≠ b →
      processHybridConsensus (.ok om) (.ok dm) fields = .ok r →
      (hybridConsensusField field.name (getFieldValue om field.name)
          (getFieldValue dm field.name)).1 =
        ⟨field.name, some a, 8/10, true, "hybrid_consensus", 0⟩ ∧
      hybridDiscrepFlag field.name a b ∈ r.review_flags) ∧
    (getFieldValue om field.name = none → getFieldValue dm field.name = none →
      (hybridConsensusField field.name (getFieldValue om field.name)
          (getFieldValue dm field.name)).1 =
        ⟨field.name, none, 0, true, "hybrid_consensus", 0⟩) := by
  refine ⟨?_, ?_, ?_, ?_, ?_, ?_, ?_⟩
  · intro a h1 h2
    rw [h1, h2]
    simp [createConsensusField]
  · intro a b h1 h2 hne
    constructor
    · rw [h1, h2]
      simp [createConsensusField, hne]
    · refine List.mem_filterMap.mpr ⟨field, hmem, ?_⟩
      rw [h1, h2]
      simp [hne]
  · intro h1 h2
    rw [h1, h2]
    simp [createConsensusField]
  · exact List.mem_map.mpr ⟨field, hmem, rfl⟩
  · intro a h1 h2
    rw [h1, h2]
    simp [hybridConsensusField]
  · intro a b r h1 h2 hne hr
    constructor
    · rw [h1, h2]
      simp [hybridConsensusField, hne]
    · have hr2 : r.review_flags =
          (fields.map fun g =>
            (hybridConsensusField g.name
              (getFieldValue om g.name) (getFieldValue dm g.name)).2).flatten := by
        simp [processHybridConsensus] at hr
        rw [← hr]
      rw [hr2]
      refine List.mem_flatten.mpr
        ⟨(hybridConsensusField field.name
            (getFieldValue om field.name) (getFieldValue dm field.name)).2,
          List.mem_map.mpr ⟨field, hmem, rfl⟩, ?_⟩
      rw [h1, h2]
      simp [hybridConsensusField, hne]
  · intro h1 h2
    rw [h1, h2]
    simp [hybridConsensusField]

/-- Closed witness for C2 at a concrete disagreeing pair of maps. -/
theorem C2_witness :
    ∃ r, processHybridConsensus (.ok [("x", JVal.str "A")]) (.ok [("x", JVal.str "B")])
          [⟨"x", "string", "d"⟩] = .ok r ∧
      (createConsensusField "x" (dualFieldValue (.ok [("x", JVal.str "A")]) "x")
          (dualFieldValue (.ok [("x", JVal.str "B")]) "x") =
        ⟨"x", some (JVal.str "A"), 8/10, true, "dual_service", 0⟩ ∧
      hybridDiscrepFlag "x" (JVal.str "A") (JVal.str "B") ∈ r.review_flags) := by
  refine ⟨_, rfl, ?_, ?_⟩
  · exact ((C2_consensus_two_and_zero_source [⟨"x", "string", "d"⟩] ⟨"x", "string", "d"⟩
      (.ok [("x", JVal.str "A")]) (.ok [("x", JVal.str "B")])
      [("x", JVal.str "A")] [("x", JVal.str "B")]
      (by decide)).2.1 (JVal.str "A") (JVal.str "B") (by decide) (by decide) (by decide)).1
  · exact ((C2_consensus_two_and_zero_source [⟨"x", "string", "d"⟩] ⟨"x", "string", "d"⟩
      (.ok [("x", JVal.str "A")]) (.ok [("x", JVal.str "B")])
      [("x", JVal.str "A")] [("x", JVal.str "B")]
      (by decide)).2.2.2.2.2.1 (JVal.str "A") (JVal.str "B") _ (by decide) (by decide)
      (by decide) rfl).2

/-- C3 counterexample: in the dual_backend_parallel consensus
(AIOrchestrator.create_consensus_field), a field extracted only by
Document Intelligence is NOT marked for review, contradicting the claim
that review_required is true exactly when B is the sole source in every
strategy that merges two source maps. -/
theorem C3_counterexample :
    (createConsensusField "x" none (some (JVal.str "B"))).review_required = false ∧
    (createConsensusField "x" none (some (JVal.str "B"))).value = some (JVal.str "B") :=
  ⟨rfl, rfl⟩

/-- C3 amended: a field produced by exactly one source takes that value,
with confidence 0.85 for OpenAI-only and 0.75 for Document
Intelligence-only in both strategies; review_required for the sole-source
B case is true in hybrid_consensus (with a review flag) but false in
dual_backend_parallel, and A-only results never require review. -/
theorem C3_single_source_amended (name : String) (v : JVal) :
    createConsensusField name (some v) none =
      ⟨name, some v, 85/100, false, "dual_service", 0⟩ ∧
    createConsensusField name none (some v) =
      ⟨name, some v, 75/100, false, "dual_service", 0⟩ ∧
    hybridConsensusField name (some v) none =
      (⟨name, some v, 85/100, false, "hybrid_consensus", 0⟩, []) ∧
    hybridConsensusField name none (some v) =
      (⟨name, some v, 75/100, true, "hybrid_consensus", 0⟩, [hybridSoloDIFlag name]) :=
  ⟨rfl, rfl, rfl, rfl⟩

/-- C6 amended: in dual_backend_parallel a single failing backend
contributes exactly what an empty map contributes and processing
continues; when both backends fail the strategy still returns a
successful extraction result in which every requested field is null at
confidence 0.0 with review required — the job does not fail. -/
theorem C6_dual_failure_policy (e1 e2 : String)
    (d o : Except String ExtMap) (fields : List FieldDefinition) :
    processDualService (.error e1) d fields = processDualService (.ok []) d fields ∧
    processDualService o (.error e2) fields = processDualService o (.ok []) fields ∧
    processDualService (.error e1) (.error e2) fields =
      { extraction_data :=
          fields.map fun field => ⟨field.name, none, 0, true, "dual_service", 0⟩
      , pages_processed := 1
      , review_flags := []
      , processing_time_ms := 0
      , strategy_used := "dual_service" } := by
  refine ⟨?_, ?_, ?_⟩
  · simp [processDualService, dualFieldValue, getFieldValue, alGet]
  · simp [processDualService, dualFieldValue, getFieldValue, alGet]
  · simp [processDualService, dualFieldValue, createConsensusField]

/-- C6 counterexample: with both backends raising, the orchestrator
returns a successful (ok) extraction result instead of failing the job. -/
theorem C6_counterexample :
    orchestratorProcess "dual_service" (.error "backend A failed")
        (.error "backend B failed") (.ok []) [⟨"x", "string", "d"⟩] =
      .ok ⟨[⟨"x", none, 0, true, "dual_service", 0⟩], 1, [], 0, "dual_service"⟩ := by
  rfl

theorem failSleeps_succ (cfg : RetryConfig) (i n : Nat) (hn : 1 ≤ n) :
    failSleeps cfg i (n + 1) =
      ((pyInt (cfg.initialDelay * cfg.backoffFactor ^ i) : Int) : ℚ) ::
        failSleeps cfg (i + 1) n := by
  obtain ⟨m, rfl⟩ : ∃ m, n = m + 1 := ⟨n - 1, by omega⟩
  simp only [failSleeps, Nat.add_sub_cancel, List.range_succ_eq_map, List.map_cons,
    List.map_map]
  refine congrArg₂ _ (by simp) ?_
  apply List.map_congr_left
  intro j _
  simp only [Function.comp_apply]
  have h2 : i + Nat.succ j = i + 1 + j := by omega
  rw [h2]

theorem downloadLoop_allFail (cfg : RetryConfig) (msg : String) :
    ∀ (k i : Nat) (tw : ℚ) (sl : List ℚ), 1 ≤ k →
      downloadLoop cfg (fun _ => .failure msg) i k tw sl =
        ⟨.error msg, sl ++ failSleeps cfg i k, tw + (failSleeps cfg i k).sum⟩ := by
  intro k
  induction k with
  | zero => intro i tw sl h; omega
  | succ n ih =>
      intro i tw sl _
      by_cases hn : n = 0
      · subst hn
        simp [downloadLoop, failSleeps]
      · rw [downloadLoop]
        simp only
        rw [if_neg hn]
        rw [ih (i + 1) _ _ (by omega)]
        rw [failSleeps_succ cfg i n (by omega)]
        simp [List.sum_cons]
        ring

theorem failSleeps_concrete :
    failSleeps ⟨5, 3/2, 3⟩ 0 3 = [5, 7] := by
  simp only [failSleeps]
  norm_num [List.range_succ, pyInt, Rat.floor_def']

/-- C5 counterexample: at initial_delay 5, backoff_factor 1.5 and
max_retries 3, a run in which every download attempt raises performs the
sleeps 5 (initial stabilization), 5 and 7 — not 5, 7.5, 11.25, because
the source truncates each delay with int() and only max_retries attempts
exist — and the third consecutive failure re-raises the original error
with an accumulated wait of 12, well short of 23.75. -/
theorem C5_counterexample :
    (runDownload ⟨5, 3/2, 3⟩ fun _ => AttemptRes.failure "download failed") =
      ⟨.error "download failed", [5, 5, 7], 12⟩ ∧
    (runDownload ⟨5, 3/2, 3⟩ fun _ => AttemptRes.failure "download failed").sleeps.tail ≠
      [5, 15/2, 45/4] ∧
    (runDownload ⟨5, 3/2, 3⟩ fun _ => AttemptRes.failure "download failed").totalWait <
      95/4 := by
  have h : (runDownload ⟨5, 3/2, 3⟩ fun _ => AttemptRes.failure "download failed") =
      ⟨.error "download failed", [5, 5, 7], 12⟩ := by
    rw [runDownload, downloadLoop_allFail _ _ _ _ _ _ (by norm_num), failSleeps_concrete]
    norm_num
  refine ⟨h, ?_, ?_⟩
  · rw [h]
    simp only [List.tail_cons]
    intro hc
    have := List.ext_get?_iff.mp hc 1
    norm_num at this
  · rw [h]
    norm_num

/-- C5 amended: the worker sleeps initial_delay once before the first
attempt; after each failing attempt except the last it sleeps
int(initial_delay * backoff_factor ** attempt), truncated to an integer
and accumulated into total_wait_time; there are max_retries attempts in
total and the last consecutive failure re-raises the underlying download
error (the accumulated wait is logged, not attached to the error).  At
initial_delay 5, backoff_factor 1.5 and max_retries 3 the sleeps are 5,
then 5 and 7 before the two retries, and the third failure raises with
accumulated retry wait 12. -/
theorem C5_retry_backoff_amended (cfg : RetryConfig) (msg : String)
    (h : 1 ≤ cfg.maxRetries) :
    runDownload cfg (fun _ => AttemptRes.failure msg) =
      ⟨.error msg, cfg.initialDelay :: failSleeps cfg 0 cfg.maxRetries,
        (failSleeps cfg 0 cfg.maxRetries).sum⟩ ∧
    runDownload ⟨5, 3/2, 3⟩ (fun _ => AttemptRes.failure msg) =
      ⟨.error msg, [5, 5, 7], 12⟩ := by
  constructor
  · rw [runDownload, downloadLoop_allFail _ _ _ _ _ _ h]
    norm_num
  · rw [runDownload, downloadLoop_allFail _ _ _ _ _ _ (by norm_num), failSleeps_concrete]
    norm_num

/-- Closed witness for C5 amended at the configured parameters. -/
theorem C5_retry_backoff_amended_witness :
    runDownload ⟨5, 3/2, 3⟩ (fun _ => AttemptRes.failure "boom") =
      ⟨.error "boom", [5, 5, 7], 12⟩ :=
  (C5_retry_backoff_amended ⟨5, 3/2, 3⟩ "boom" (by norm_num)).2

theorem alGet_eq_none_of_not_mem {α : Type} (m : List (String × α)) (k : String)
    (h : k ∉ m.map Prod.fst) : alGet m k = none := by
  induction m with
  | nil => rfl
  | cons hd tl ih =>
      simp only [List.map_cons, List.mem_cons] at h
      push_neg at h
      simp [alGet, Ne.symm h.1, ih h.2]

theorem alGet_mergeStep_ne (merged : ExtMap) (kv : String × JVal) (k : String)
    (h : kv.1 ≠ k) : alGet (mergeStep merged kv) k = alGet merged k := by
  unfold mergeStep
  split_ifs <;> simp [alGet_alSet_ne _ _ _ _ (Ne.symm h)]

theorem alGet_mergeStep_meta (merged : ExtMap) (kv : String × JVal) (k : String)
    (h : k ∈ metaKeys) : alGet (mergeStep merged kv) k = alGet merged k := by
  by_cases hk : kv.1 = k
  · subst hk
    unfold mergeStep
    rw [if_pos h]
  · exact alGet_mergeStep_ne merged kv k hk

theorem mergeFold_not_mem (base : ExtMap) (new : ExtMap) (k : String)
    (h : ∀ kv ∈ new, kv.1 ≠ k) :
    alGet (List.foldl mergeStep base new) k = alGet base k := by
  induction new generalizing base with
  | nil => rfl
  | cons hd tl ih =>
      rw [List.foldl_cons, ih _ fun kv hkv => h kv (List.mem_cons_of_mem hd hkv)]
      exact alGet_mergeStep_ne base hd k (h hd (List.mem_cons_self hd tl))

theorem mergeExtractions_meta (base new : ExtMap) (k : String) (h : k ∈ metaKeys) :
    alGet (mergeExtractions base new) k = alGet base k := by
  unfold mergeExtractions
  induction new generalizing base with
  | nil => rfl
  | cons hd tl ih => rw [List.foldl_cons, ih, alGet_mergeStep_meta base hd k h]

theorem mergeExtractions_lookup (base new : ExtMap) (k : String)
    (hnd : (new.map Prod.fst).Nodup) (hk : k ∉ metaKeys) :
    alGet (mergeExtractions base new) k =
      match alGet new k with
      | some v =>
          if v = JVal.null then some ((alGet base k).getD JVal.null) else some v
      | none => alGet base k := by
  unfold mergeExtractions
  induction new generalizing base with
  | nil => rfl
  | cons hd tl ih =>
      simp only [List.map_cons, List.nodup_cons] at hnd
      rw [List.foldl_cons]
      by_cases hk1 : hd.1 = k
      · have htl : ∀ kv ∈ tl, kv.1 ≠ k := by
          intro kv hkv hc
          apply hnd.1
          rw [hk1, ← hc]
          exact List.mem_map.mpr ⟨kv, hkv, rfl⟩
        rw [mergeFold_not_mem _ _ _ htl]
        have hmeta : hd.1 ∉ metaKeys := by rw [hk1]; exact hk
        have hget : alGet (hd :: tl) k = some hd.2 := by simp [alGet, hk1]
        rw [hget]
        by_cases hbase : alHas base hd.1
        · by_cases hnull : hd.2 = JVal.null
          · have hb2 : (alGet base k).isSome := by
              unfold alHas at hbase
              rwa [hk1] at hbase
            obtain ⟨w, hw⟩ := Option.isSome_iff_exists.mp hb2
            simp [mergeStep, hmeta, hbase, hnull, hw]
          · simp only [mergeStep, hmeta, hbase, hnull, hk1, if_true, if_false,
              ite_true, ite_false, ne_eq, not_false_eq_true, if_neg hk]
            rw [ite_self, alGet_alSet_self]
        · by_cases hnull : hd.2 = JVal.null
          · have hb3 : ¬alHas base k = true := by rwa [hk1] at hbase
            have hb2 : alGet base k = none :=
              Option.not_isSome_iff_eq_none.mp (by simpa [alHas] using hb3)
            simp only [mergeStep, hmeta, hbase, hnull, hk1, if_neg hk, if_neg hb3,
              ite_false, ite_true]
            rw [alGet_alSet_self]
            simp [hb2]
          · simp only [mergeStep, hmeta, hbase, hnull, hk1, if_neg hk, ite_false,
              ite_true, ne_eq, not_false_eq_true]
            rw [ite_self, alGet_alSet_self]
      · rw [ih _ hnd.2]
        have hget : alGet (hd :: tl) k = alGet tl k := by simp [alGet, hk1]
        rw [hget]
        have hstep : alGet (mergeStep base hd) k = alGet base k :=
          alGet_mergeStep_ne base hd k hk1
        cases hx : alGet tl k with
        | none => exact hstep
        | some v =>
            by_cases hnull : v = JVal.null
            · simp [hnull, hstep]
            · simp [hnull]

/-- C4: cascade batch merge is last-non-null-wins and null never
overwrites.  For any accumulator and any batch output (whose keys, being
a dict's, are distinct): a non-null new value replaces the old binding,
a null new value leaves an existing binding untouched, no key of the
accumulator is ever removed, and the two concrete examples of the spec
evaluate as stated.  Extraction field keys are the ones quantified over;
the four bookkeeping keys of metaKeys are skipped by the merge by
design. -/
theorem C4_merge_last_non_null_wins :
    (∀ (base new : ExtMap) (k : String) (v : JVal),
        (new.map Prod.fst).Nodup → k ∉ metaKeys →
        alGet new k = some v → v ≠ JVal.null →
        alGet (mergeExtractions base new) k = some v) ∧
    (∀ (base new : ExtMap) (k : String) (w : JVal),
        (new.map Prod.fst).Nodup → k ∉ metaKeys →
        alGet new k = some JVal.null → alGet base k = some w →
        alGet (mergeExtractions base new) k = some w) ∧
    (∀ (base new : ExtMap) (k : String),
        (new.map Prod.fst).Nodup →
        (alGet base k).isSome → (alGet (mergeExtractions base new) k).isSome) ∧
    mergeExtractions [("a", JVal.num 1), ("b", JVal.null)]
        [("b", JVal.num 2), ("c", JVal.num 3)] =
      [("a", JVal.num 1), ("b", JVal.num 2), ("c", JVal.num 3)] ∧
    mergeExtractions [("a", JVal.num 1)] [("a", JVal.null)] = [("a", JVal.num 1)] := by
  refine ⟨?_, ?_, ?_, by decide, by decide⟩
  · intro base new k v hnd hk hget hnull
    rw [mergeExtractions_lookup base new k hnd hk, hget]
    simp [hnull]
  · intro base new k w hnd hk hget hbase
    rw [mergeExtractions_lookup base new k hnd hk, hget]
    simp [hbase]
  · intro base new k hnd hbase
    by_cases hk : k ∈ metaKeys
    · rw [mergeExtractions_meta base new k hk]
      exact hbase
    · rw [mergeExtractions_lookup base new k hnd hk]
      cases hx : alGet new k with
      | none => exact hbase
      | some v =>
          by_cases hnull : v = JVal.null
          · simp [hnull]
          · simp [hnull]

/-- Closed witness for C4 at the spec's concrete example. -/
theorem C4_witness :
    alGet (mergeExtractions [("a", JVal.num 1), ("b", JVal.null)]
      [("b", JVal.num 2), ("c", JVal.num 3)]) "b" = some (JVal.num 2) :=
  C4_merge_last_non_null_wins.1 [("a", JVal.num 1), ("b", JVal.null)]
    [("b", JVal.num 2), ("c", JVal.num 3)] "b" (JVal.num 2)
    (by decide) (by decide) (by decide) (by decide)

theorem chunksOf5_flatten {α : Type} (l : List α) : (chunksOf5 l).flatten = l := by
  induction l using chunksOf5.induct with
  | case1 => simp [chunksOf5]
  | case2 a l ih =>
      rw [chunksOf5]
      simp only [List.flatten_cons]
      rw [ih]
      exact List.take_append_drop 5 (a :: l)

theorem chunksOf5_mem {α : Type} (l : List α) :
    ∀ b ∈ chunksOf5 l, b.length ≤ 5 ∧ b ≠ [] := by
  induction l using chunksOf5.induct with
  | case1 => simp [chunksOf5]
  | case2 a l ih =>
      rw [chunksOf5]
      intro b hb
      rcases List.mem_cons.mp hb with hb1 | hb2
      · subst hb1
        refine ⟨by simp, by simp⟩
      · exact ih b hb2

theorem chunksOf5_length {α : Type} (l : List α) :
    (chunksOf5 l).length = (l.length + 4) / 5 := by
  induction l using chunksOf5.induct with
  | case1 => simp [chunksOf5]
  | case2 a l ih =>
      rw [chunksOf5]
      simp only [List.length_cons, ih, List.length_drop]
      omega

theorem cascadeLoop_pages (call : List String → String → ExtMap)
    (fields : List FieldDefinition) (p : String) :
    ∀ (batches : List (List String)) (acc : ExtMap) (log : List CallLog),
      ((cascadeLoop call fields p (acc, log) batches).2).map CallLog.pages =
        log.map CallLog.pages ++ batches := by
  intro batches
  induction batches with
  | nil => intro acc log; simp [cascadeLoop]
  | cons b rest ih =>
      intro acc log
      rw [cascadeLoop]
      simp only [processSingleBatch]
      rw [ih]
      simp

theorem cascadeLoop_prompts (call : List String → String → ExtMap)
    (fields : List FieldDefinition) (p : String) :
    ∀ (batches : List (List String)) (acc : ExtMap) (log : List CallLog)
      (entry : CallLog),
      entry ∈ (cascadeLoop call fields p (acc, log) batches).2 →
      entry ∈ log ∨ ∃ acc2 : ExtMap,
        entry.prompt =
          enhancedPrompt (referencePrompt p acc2 ++ "\n\n" ++ buildFieldsDescription fields)
            entry.pages.length := by
  intro batches
  induction batches with
  | nil =>
      intro acc log entry h
      exact Or.inl (by simpa [cascadeLoop] using h)
  | cons b rest ih =>
      intro acc log entry h
      rw [cascadeLoop] at h
      simp only [processSingleBatch] at h
      rcases ih _ _ entry h with h1 | h2
      · rcases List.mem_append.mp h1 with h3 | h4
        · exact Or.inl h3
        · refine Or.inr ⟨acc, ?_⟩
          have : entry = ⟨b, enhancedPrompt (referencePrompt p acc ++ "\n\n" ++
              buildFieldsDescription fields) b.length⟩ := by simpa using h4
          rw [this]
      · exact Or.inr h2

theorem cascadeLoop_split (call : List String → String → ExtMap)
    (fields : List FieldDefinition) (p : String) :
    ∀ (batches : List (List String)) (acc : ExtMap) (log : List CallLog),
      ∃ newEntries : List CallLog,
        (cascadeLoop call fields p (acc, log) batches).2 = log ++ newEntries ∧
        newEntries.map CallLog.pages = batches ∧
        ∀ entry ∈ newEntries, ∃ acc2 : ExtMap,
          entry.prompt =
            enhancedPrompt
              (referencePrompt p acc2 ++ "\n\n" ++ buildFieldsDescription fields)
              entry.pages.length := by
  intro batches
  induction batches with
  | nil =>
      intro acc log
      exact ⟨[], by simp [cascadeLoop], by simp, by simp⟩
  | cons b rest ih =>
      intro acc log
      rw [cascadeLoop]
      simp only [processSingleBatch]
      obtain ⟨ne, heq, hpages, hprompts⟩ := ih
        (mergeExtractions acc
          (alSet
            (alSet (alSet (call b (enhancedPrompt (referencePrompt p acc ++ "\n\n" ++
              buildFieldsDescription fields) b.length)) "multi_page_analysis" (JVal.bool true))
              "total_pages_analyzed" (JVal.num b.length))
            "pages_processed" (JVal.num b.length)))
        (log ++ [⟨b, enhancedPrompt (referencePrompt p acc ++ "\n\n" ++
          buildFieldsDescription fields) b.length⟩])
      refine ⟨⟨b, enhancedPrompt (referencePrompt p acc ++ "\n\n" ++
          buildFieldsDescription fields) b.length⟩ :: ne, ?_, ?_, ?_⟩
      · rw [heq]
        simp
      · simp [hpages]
      · intro entry hentry
        rcases List.mem_cons.mp hentry with h1 | h2
        · subst h1
          exact ⟨acc, rfl⟩
        · exact hprompts entry h2

/-- The batched cascade as section 4.3 of the spec words it, written from
the spec for comparison against the source-derived cascadeLoop: starting
from the baseline accumulator, each batch is sent with a prompt that
carries the current accumulated extraction as context, and the batch
output is merged into the accumulator last-non-null-wins; the result is
the final accumulator together with the calls made, in order. -/
def specCascade (call : List String → String → ExtMap) (fields : List FieldDefinition)
    (prompt : String) : ExtMap → List (List String) → ExtMap × List CallLog
  | acc, [] => (acc, [])
  | acc, batch :: rest =>
      let r := processSingleBatch call batch fields (referencePrompt prompt acc)
      let s := specCascade call fields prompt (mergeExtractions acc r.1) rest
      (s.1, r.2 ++ s.2)

/-- Refinement: the source's cascade loop computes exactly the
spec-worded cascade — the same final accumulated map, and the call log
extended by precisely the spec cascade's calls. -/
theorem cascadeLoop_eq_specCascade (call : List String → String → ExtMap)
    (fields : List FieldDefinition) (p : String) :
    ∀ (batches : List (List String)) (acc : ExtMap) (log : List CallLog),
      cascadeLoop call fields p (acc, log) batches =
        ((specCascade call fields p acc batches).1,
          log ++ (specCascade call fields p acc batches).2) := by
  intro batches
  induction batches with
  | nil => intro acc log; simp [cascadeLoop, specCascade]
  | cons b rest ih =>
      intro acc log
      rw [cascadeLoop]
      simp only [specCascade, processSingleBatch]
      rw [ih]
      simp

/-- C8: cascade batching structure.  For a nonempty rendered page list
(the converters yield at least one page; the source raises on zero
pages): the invocation trace covers the pages exactly, in order, in
batches of at most five; at most five pages mean a single call carrying
all pages; more than five mean that the whole run equals the spec-worded
cascade — a first call on pages one to five with the plain prompt
producing the baseline accumulator, then one call per consecutive
five-page slice, each carrying the current accumulated extraction in its
prompt and merged into the accumulator, the returned map being the final
accumulator; the number of calls is the page count divided by five
rounded up; and the returned map carries pages_processed equal to the
total page count. -/
theorem C8_cascade_batching (call : List String → String → ExtMap)
    (images : List String) (fields : List FieldDefinition) (prompt : String)
    (himg : images ≠ []) :
    alGet (processWithOpenaiCascade call images fields prompt).1 "pages_processed" =
      some (JVal.num images.length) ∧
    ((processWithOpenaiCascade call images fields prompt).2.map CallLog.pages).flatten =
      images ∧
    (∀ entry ∈ (processWithOpenaiCascade call images fields prompt).2,
      entry.pages.length ≤ 5 ∧ entry.pages ≠ []) ∧
    (images.length ≤ 5 →
      (processWithOpenaiCascade call images fields prompt).2 =
        [⟨images, enhancedPrompt (prompt ++ "\n\n" ++ buildFieldsDescription fields)
            images.length⟩]) ∧
    (5 < images.length →
      (processWithOpenaiCascade call images fields prompt).2.map CallLog.pages =
        images.take 5 :: chunksOf5 (images.drop 5) ∧
      processWithOpenaiCascade call images fields prompt =
        (alSet
          (specCascade call fields prompt
            (processSingleBatch call (images.take 5) fields prompt).1
            (chunksOf5 (images.drop 5))).1
          "pages_processed" (JVal.num images.length),
         ⟨images.take 5,
            enhancedPrompt (prompt ++ "\n\n" ++ buildFieldsDescription fields)
              (images.take 5).length⟩ ::
           (specCascade call fields prompt
             (processSingleBatch call (images.take 5) fields prompt).1
             (chunksOf5 (images.drop 5))).2)) ∧
    (processWithOpenaiCascade call images fields prompt).2.length =
      (images.length + 4) / 5 := by
  by_cases hle : images.length ≤ 5
  · simp only [processWithOpenaiCascade, if_pos hle, processSingleBatch]
    refine ⟨alGet_alSet_self _ _ _, by simp, ?_, ?_,
      fun h => absurd h (by omega), ?_⟩
    · intro entry hentry
      simp only [List.mem_singleton] at hentry
      subst hentry
      exact ⟨hle, himg⟩
    · intro _
      trivial
    · have hpos : 0 < images.length := List.length_pos.mpr himg
      simp only [List.length_singleton]
      omega
  · have hgt : 5 < images.length := by omega
    obtain ⟨ne, heq, hpages, hprompts⟩ :=
      cascadeLoop_split call fields prompt (chunksOf5 (images.drop 5))
        (processSingleBatch call (images.take 5) fields prompt).1
        (processSingleBatch call (images.take 5) fields prompt).2
    rw [Prod.mk.eta] at heq
    have h2 : (processSingleBatch call (images.take 5) fields prompt).2 =
        [⟨images.take 5, enhancedPrompt (prompt ++ "\n\n" ++ buildFieldsDescription fields)
            (images.take 5).length⟩] := rfl
    rw [h2] at heq
    have hlog : (processWithOpenaiCascade call images fields prompt).2 =
        ⟨images.take 5, enhancedPrompt (prompt ++ "\n\n" ++ buildFieldsDescription fields)
            (images.take 5).length⟩ :: ne := by
      simp only [processWithOpenaiCascade, if_neg hle, processCascadeBatches]
      rw [heq]
      simp
    have hmap : (processWithOpenaiCascade call images fields prompt).2.map CallLog.pages =
        images.take 5 :: chunksOf5 (images.drop 5) := by
      rw [hlog]
      simp [hpages]
    have htake5 : (images.take 5).length = 5 := by
      simp [List.length_take]
      omega
    have h0 : processSingleBatch call (images.take 5) fields prompt =
        ((processSingleBatch call (images.take 5) fields prompt).1,
         [⟨images.take 5, enhancedPrompt (prompt ++ "\n\n" ++
            buildFieldsDescription fields) (images.take 5).length⟩]) := rfl
    have heqn : processWithOpenaiCascade call images fields prompt =
        (alSet
          (specCascade call fields prompt
            (processSingleBatch call (images.take 5) fields prompt).1
            (chunksOf5 (images.drop 5))).1
          "pages_processed" (JVal.num images.length),
         ⟨images.take 5,
            enhancedPrompt (prompt ++ "\n\n" ++ buildFieldsDescription fields)
              (images.take 5).length⟩ ::
           (specCascade call fields prompt
             (processSingleBatch call (images.take 5) fields prompt).1
             (chunksOf5 (images.drop 5))).2) := by
      simp only [processWithOpenaiCascade, if_neg hle, processCascadeBatches]
      rw [h0, cascadeLoop_eq_specCascade]
      simp
    refine ⟨?_, ?_, ?_, fun h => absurd h (by omega), fun _ => ⟨hmap, heqn⟩, ?_⟩
    · simp only [processWithOpenaiCascade, if_neg hle, processCascadeBatches]
      exact alGet_alSet_self _ _ _
    · rw [hmap]
      simp only [List.flatten_cons, chunksOf5_flatten]
      exact List.take_append_drop 5 images
    · intro entry hentry
      have hpmem : entry.pages ∈ (processWithOpenaiCascade call images fields
          prompt).2.map CallLog.pages := List.mem_map.mpr ⟨entry, hentry, rfl⟩
      rw [hmap] at hpmem
      rcases List.mem_cons.mp hpmem with h3 | h4
      · rw [h3, htake5]
        refine ⟨by omega, ?_⟩
        rw [h3] at *
        intro hc
        rw [hc] at htake5
        simp at htake5
      · exact chunksOf5_mem _ _ h4
    · rw [hlog]
      have hne : ne.length = (chunksOf5 (images.drop 5)).length := by
        rw [← hpages]
        simp
      rw [List.length_cons, hne, chunksOf5_length, List.length_drop]
      omega

/-- Closed witness for C8 on a concrete seven-page document. -/
theorem C8_witness :
    ((processWithOpenaiCascade (fun pages _ => [("n", JVal.num pages.length)])
        ["p1", "p2", "p3", "p4", "p5", "p6", "p7"] [⟨"n", "number", "d"⟩] "pr").2.map
      CallLog.pages).flatten = ["p1", "p2", "p3", "p4", "p5", "p6", "p7"] :=
  (C8_cascade_batching (fun pages _ => [("n", JVal.num pages.length)])
    ["p1", "p2", "p3", "p4", "p5", "p6", "p7"] [⟨"n", "number", "d"⟩] "pr"
    (by decide)).2.1

theorem alGet_append {α : Type} (m l : List (String × α)) (k : String) :
    alGet (m ++ l) k = match alGet m k with | some v => some v | none => alGet l k := by
  induction m with
  | nil => simp [alGet]
  | cons hd tl ih =>
      by_cases h : hd.1 = k
      · simp [alGet, h]
      · simp [alGet, h, ih]

theorem updateJobStatusRun_queues (world : World) (f : Faults) (job_id status : String)
    (em : Option String) (pt fe : Option Nat) :
    (updateJobStatusRun world f job_id status em pt fe).mainQueue = world.mainQueue ∧
    (updateJobStatusRun world f job_id status em pt fe).failedQueue = world.failedQueue := by
  unfold updateJobStatusRun updateJobStatusExc
  by_cases h1 : f.cosmosReadFails
  · simp [h1]
  · simp only [h1, if_false, Bool.false_eq_true, ite_false]
    cases h2 : alGet world.jobs job_id with
    | some job =>
        cases h3 : cosmosUpdateJobStatus world.jobs f job_id status
            (mkUpdateData status em pt fe) with
        | some jobs2 => simp [h3]
        | none => simp [h3]
    | none =>
        by_cases h4 : f.cosmosCreateOk
        · simp [h4]
        · simp [h4]

theorem alGet_replaceByRid_isSome (jobs : List (String × JobRec)) (rid st : String)
    (pd : UpdateData) (k : String) (h : (alGet jobs k).isSome) :
    (alGet (replaceByRid jobs rid st pd) k).isSome := by
  induction jobs with
  | nil => simpa [replaceByRid] using h
  | cons kv rest ih =>
      by_cases hr : kv.2.rid = rid
      · by_cases hk : kv.1 = k
        · simp [replaceByRid, hr, alGet, hk]
        · simp only [replaceByRid, hr, ite_true]
          simp only [alGet, hk, if_false, Bool.false_eq_true, ite_false] at h ⊢
          exact h
      · by_cases hk : kv.1 = k
        · simp [replaceByRid, hr, alGet, hk]
        · simp only [replaceByRid, hr, ite_false, Bool.false_eq_true]
          simp only [alGet, hk, if_false, Bool.false_eq_true, ite_false] at h ⊢
          exact ih h

theorem updateJobStatusRun_presence (world : World) (f : Faults)
    (job_id status : String) (em : Option String) (pt fe : Option Nat) (k : String)
    (h : (alGet world.jobs k).isSome) :
    (alGet (updateJobStatusRun world f job_id status em pt fe).jobs k).isSome := by
  unfold updateJobStatusRun updateJobStatusExc
  by_cases h1 : f.cosmosReadFails
  · simp [h1, h]
  · simp only [h1, if_false, Bool.false_eq_true, ite_false]
    cases h2 : alGet world.jobs job_id with
    | some job =>
        cases h3 : cosmosUpdateJobStatus world.jobs f job_id status
            (mkUpdateData status em pt fe) with
        | some jobs2 =>
            simp only [h3]
            have h4 : jobs2 = replaceByRid world.jobs job_id status
                (mkUpdateData status em pt fe) := by
              unfold cosmosUpdateJobStatus at h3
              by_cases h5 : f.cosmosUpdateOk
              · by_cases h6 : world.jobs.any (fun kv => kv.2.rid = job_id)
                · rw [if_pos h5, if_pos h6] at h3
                  exact (Option.some.injEq _ _ ▸ h3).symm
                · rw [if_pos h5, if_neg h6] at h3
                  exact absurd h3 (by simp)
              · rw [if_neg h5] at h3
                exact absurd h3 (by simp)
            subst h4
            exact alGet_replaceByRid_isSome world.jobs job_id status
              (mkUpdateData status em pt fe) k h
        | none => simp [h3, h]
    | none =>
        by_cases h4 : f.cosmosCreateOk
        · simp only [h4, ite_true]
          rw [alGet_append]
          obtain ⟨w, hw⟩ := Option.isSome_iff_exists.mp h
          simp [hw]
        · simp [h4, h]

theorem runFinally_queues (world : World) (f : Faults) (job_id : String) :
    (runFinally world f job_id).mainQueue = world.mainQueue ∧
    (runFinally world f job_id).failedQueue = world.failedQueue := by
  unfold runFinally
  by_cases h1 : workerGetJobStatus world f job_id = "processing"
  · simp only [h1, ite_true]
    cases f.verifyError with
    | some m => exact updateJobStatusRun_queues _ _ _ _ _ _ _
    | none =>
        by_cases h2 : f.docExists && f.extExists
        · simp only [h2, ite_true]
          exact updateJobStatusRun_queues _ _ _ _ _ _ _
        · simp only [h2, Bool.false_eq_true, ite_false]
          exact updateJobStatusRun_queues _ _ _ _ _ _ _
  · simp [h1]

theorem runFinally_presence (world : World) (f : Faults) (job_id k : String)
    (h : (alGet world.jobs k).isSome) :
    (alGet (runFinally world f job_id).jobs k).isSome := by
  unfold runFinally
  by_cases h1 : workerGetJobStatus world f job_id = "processing"
  · simp only [h1, ite_true]
    cases f.verifyError with
    | some m => exact updateJobStatusRun_presence _ _ _ _ _ _ _ _ h
    | none =>
        by_cases h2 : f.docExists && f.extExists
        · simp only [h2, ite_true]
          exact updateJobStatusRun_presence _ _ _ _ _ _ _ _ h
        · simp only [h2, Bool.false_eq_true, ite_false]
          exact updateJobStatusRun_presence _ _ _ _ _ _ _ _ h
  · simp [h1, h]

/-- Frame relation: a worker step preserves both queues and never drops
a job record. -/
def FrameOk (w w2 : World) : Prop :=
  w2.mainQueue = w.mainQueue ∧ w2.failedQueue = w.failedQueue ∧
  ∀ k, (alGet w.jobs k).isSome → (alGet w2.jobs k).isSome

theorem frameOk_refl (w : World) : FrameOk w w := ⟨rfl, rfl, fun _ h => h⟩

theorem frameOk_trans {w1 w2 w3 : World} (h1 : FrameOk w1 w2) (h2 : FrameOk w2 w3) :
    FrameOk w1 w3 :=
  ⟨h2.1.trans h1.1, h2.2.1.trans h1.2.1, fun k hk => h2.2.2 k (h1.2.2 k hk)⟩

theorem frameOk_update (w : World) (f : Faults) (jid st : String) (em : Option String)
    (pt fe : Option Nat) : FrameOk w (updateJobStatusRun w f jid st em pt fe) :=
  ⟨(updateJobStatusRun_queues w f jid st em pt fe).1,
   (updateJobStatusRun_queues w f jid st em pt fe).2,
   fun k hk => updateJobStatusRun_presence w f jid st em pt fe k hk⟩

theorem frameOk_finally (w : World) (f : Faults) (jid : String) :
    FrameOk w (runFinally w f jid) :=
  ⟨(runFinally_queues w f jid).1, (runFinally_queues w f jid).2,
   fun k hk => runFinally_presence w f jid k hk⟩

theorem frameOk_failPath (w : World) (f : Faults) (jid e : String) :
    FrameOk w (failPath w f jid e).2 := by
  unfold failPath
  exact frameOk_trans (frameOk_update w f jid "failed" (some e) none none)
    (frameOk_finally _ f jid)

theorem workerProcessDocument_frame (cfg : RetryConfig) (world : World) (f : Faults)
    (content : MsgContent) :
    FrameOk world (workerProcessDocument cfg world f content).2 := by
  unfold workerProcessDocument
  by_cases hg : workerGetJobStatus world f content.job_id ≠ "pending"
  · rw [if_pos hg]
    exact frameOk_refl world
  · rw [if_neg hg]
    have hw1 : FrameOk world
        (updateJobStatusRun world f content.job_id "processing" none none none) :=
      frameOk_update _ _ _ _ _ _ _
    cases hdl : (runDownload cfg f.attempts).result with
    | error e => exact frameOk_trans hw1 (frameOk_failPath _ f _ e)
    | ok nb =>
        cases hai : f.aiResult with
        | error m => exact frameOk_trans hw1 (frameOk_failPath _ f _ _)
        | ok extraction =>
            cases hsd : saveOutcome f.saveDocResult
                "Error guardando documento en Cosmos DB" with
            | error m => exact frameOk_trans hw1 (frameOk_failPath _ f _ _)
            | ok di =>
                cases hse : saveOutcome f.saveExtResult
                    "Error guardando resultado de extracción en Cosmos DB" with
                | error m => exact frameOk_trans hw1 (frameOk_failPath _ f _ _)
                | ok xi =>
                    exact frameOk_trans hw1 (frameOk_trans (frameOk_update _ _ _ _ _ _ _)
                      (frameOk_trans (frameOk_update _ _ _ _ _ _ _)
                        (frameOk_finally _ f _)))

theorem workerProcessDocument_skip (cfg : RetryConfig) (world : World) (f : Faults)
    (content : MsgContent) (h : workerGetJobStatus world f content.job_id ≠ "pending") :
    workerProcessDocument cfg world f content = (ProcResult.skipped, world) := by
  unfold workerProcessDocument
  rw [if_pos h]

theorem processQueue_skip (cfg : RetryConfig) (world : World) (f : Faults)
    (m : QueueMsg) (rest : List QueueMsg) (hq : world.mainQueue = m :: rest)
    (h : workerGetJobStatus world f m.content.job_id ≠ "pending")
    (hdel : f.queueDeleteOk = true) :
    (processQueue cfg world f).jobs = world.jobs ∧
    (processQueue cfg world f).failedQueue = world.failedQueue ∧
    (processQueue cfg world f).mainQueue =
      world.mainQueue.filter fun q => q.message_id ≠ m.message_id := by
  unfold processQueue
  rw [hq]
  simp only [workerProcessDocument_skip cfg world f m.content h]
  unfold deleteMessage
  rw [hdel]
  simp [hq]

/-- C1: idempotency guard.  A dequeued message whose job status is not
pending is dropped: process_document returns skipped without touching any
state, and the queue iteration leaves the job store and the dead-letter
queue unchanged while removing the message from the main queue — so a
redelivery of a job id whose status has moved past pending is a no-op and
one job sees exactly one state transition sequence. -/
theorem C1_idempotency_guard (cfg : RetryConfig) (world : World) (f : Faults)
    (m : QueueMsg) (rest : List QueueMsg) (hq : world.mainQueue = m :: rest)
    (h : workerGetJobStatus world f m.content.job_id ≠ "pending")
    (hdel : f.queueDeleteOk = true) :
    workerProcessDocument cfg world f m.content = (ProcResult.skipped, world) ∧
    (processQueue cfg world f).jobs = world.jobs ∧
    (processQueue cfg world f).failedQueue = world.failedQueue ∧
    (processQueue cfg world f).mainQueue =
      world.mainQueue.filter fun q => q.message_id ≠ m.message_id :=
  ⟨workerProcessDocument_skip cfg world f m.content h,
    processQueue_skip cfg world f m rest hq h hdel⟩

/-- C10: a missing job record reads as not_found and a raising store
reads as error — never pending — so the guard drops the message: it is
deleted from the main queue, the document is never processed, no
dead-letter message appears and the job store is untouched. -/
theorem C10_missing_job_guard (cfg : RetryConfig) (world : World) (f : Faults)
    (m : QueueMsg) (rest : List QueueMsg) (hq : world.mainQueue = m :: rest)
    (hcase : (f.cosmosReadFails = false ∧ alGet world.jobs m.content.job_id = none) ∨
      f.cosmosReadFails = true)
    (hdel : f.queueDeleteOk = true) :
    workerGetJobStatus world f m.content.job_id =
      (if f.cosmosReadFails then "error" else "not_found") ∧
    workerProcessDocument cfg world f m.content = (ProcResult.skipped, world) ∧
    (processQueue cfg world f).jobs = world.jobs ∧
    (processQueue cfg world f).failedQueue = world.failedQueue ∧
    (processQueue cfg world f).mainQueue =
      world.mainQueue.filter fun q => q.message_id ≠ m.message_id := by
  have hst : workerGetJobStatus world f m.content.job_id =
      (if f.cosmosReadFails then "error" else "not_found") := by
    rcases hcase with ⟨h1, h2⟩ | h1
    · unfold workerGetJobStatus
      rw [h1, h2]
    · unfold workerGetJobStatus
      rw [h1]
      rfl
  have hnp : workerGetJobStatus world f m.content.job_id ≠ "pending" := by
    rw [hst]
    by_cases h : f.cosmosReadFails <;> simp [h]
  exact ⟨hst, workerProcessDocument_skip cfg world f m.content hnp,
    processQueue_skip cfg world f m rest hq hnp hdel⟩

theorem updateJobStatusRun_noop (w : World) (f : Faults) (jid st : String)
    (em : Option String) (pt fe : Option Nat) (j : JobRec)
    (hread : f.cosmosReadFails = false) (hjob : alGet w.jobs jid = some j)
    (hupd : f.cosmosUpdateOk = false) :
    updateJobStatusRun w f jid st em pt fe = w := by
  unfold updateJobStatusRun updateJobStatusExc
  rw [hread, hjob]
  simp [cosmosUpdateJobStatus, hupd]

/-- C9: the status-update operation never propagates an error.  Every
internal failure of update_job_status is swallowed, leaving the store as
it was and the queues untouched; consequently, even when the store
refuses every status write, a job that processes cleanly still returns
completed, no dead-letter message is published, and the message is
acked — a failed status write alone can neither abort processing, fail a
job, nor route a message to the dead-letter queue. -/
theorem C9_status_update_never_aborts (cfg : RetryConfig) (world : World) (f : Faults)
    (m : QueueMsg) (rest : List QueueMsg) (j : JobRec) (nb : Nat)
    (er : ExtractionResult) (ds xs : String)
    (hq : world.mainQueue = m :: rest)
    (hjob : alGet world.jobs m.content.job_id = some j)
    (hpend : j.status = "pending")
    (hread : f.cosmosReadFails = false)
    (hupd : f.cosmosUpdateOk = false)
    (hdl : (runDownload cfg f.attempts).result = Except.ok nb)
    (hai : f.aiResult = Except.ok er)
    (hsd : f.saveDocResult = Except.ok (some ds))
    (hse : f.saveExtResult = Except.ok (some xs))
    (hdel : f.queueDeleteOk = true) :
    (∀ (w : World) (jid st : String) (em : Option String) (pt fe : Option Nat),
      (updateJobStatusRun w f jid st em pt fe).mainQueue = w.mainQueue ∧
      (updateJobStatusRun w f jid st em pt fe).failedQueue = w.failedQueue) ∧
    (∀ (w : World) (jid st : String) (em : Option String) (pt fe : Option Nat),
      updateJobStatusExc w f jid st em pt fe =
          Except.ok (updateJobStatusRun w f jid st em pt fe) ∨
      updateJobStatusRun w f jid st em pt fe = w) ∧
    workerProcessDocument cfg world f m.content = (ProcResult.completed, world) ∧
    (processQueue cfg world f).failedQueue = world.failedQueue ∧
    (processQueue cfg world f).mainQueue =
      world.mainQueue.filter fun q => q.message_id ≠ m.message_id := by
  have hguard : workerGetJobStatus world f m.content.job_id = "pending" := by
    unfold workerGetJobStatus
    rw [hread, hjob]
    simp [hpend]
  have hnoop : ∀ (st : String) (em : Option String) (pt fe : Option Nat),
      updateJobStatusRun world f m.content.job_id st em pt fe = world :=
    fun st em pt fe => updateJobStatusRun_noop world f m.content.job_id st em pt fe j
      hread hjob hupd
  have hfin : runFinally world f m.content.job_id = world := by
    unfold runFinally
    rw [hguard]
    simp
  have hdoc : workerProcessDocument cfg world f m.content =
      (ProcResult.completed, world) := by
    unfold workerProcessDocument
    rw [if_neg (by rw [hguard]; simp)]
    rw [hnoop "processing" none none none, hdl, hai, hsd, hse]
    simp only [saveOutcome]
    rw [hnoop, hnoop, hfin]
  refine ⟨fun w jid st em pt fe => updateJobStatusRun_queues w f jid st em pt fe,
    ?_, hdoc, ?_, ?_⟩
  · intro w jid st em pt fe
    unfold updateJobStatusRun
    cases h : updateJobStatusExc w f jid st em pt fe with
    | ok w2 => exact Or.inl rfl
    | error e => exact Or.inr rfl
  · unfold processQueue
    rw [hq]
    simp only [hdoc]
    unfold deleteMessage
    rw [hdel]
    simp
  · unfold processQueue
    rw [hq]
    simp only [hdoc]
    unfold deleteMessage
    rw [hdel]
    simp [hq]

/-- Concrete artifacts used by the closed witnesses below. -/
def cfgW : RetryConfig := ⟨1, 1, 1⟩

def msgContentW : MsgContent := ⟨"job1", "path", "dual_service", "", [], "doc.pdf", 0⟩

def qmsgW : QueueMsg := ⟨"mid1", "rcpt1", msgContentW⟩

def jobPendingW : JobRec := ⟨"job_9f3c", "pending", none, none, none, none⟩

def jobCompletedW : JobRec := ⟨"job_7a1b", "completed", none, some 0, some 0, none⟩

def worldPendingW : World := ⟨[("job1", jobPendingW)], [qmsgW], []⟩

def worldCompletedW : World := ⟨[("job1", jobCompletedW)], [qmsgW], []⟩

def worldMissingW : World := ⟨[], [qmsgW], []⟩

def erW : ExtractionResult := ⟨[], 1, [], 0, "dual_service"⟩

def faultsBaseW : Faults :=
  ⟨false, true, true, "job_41d2", fun _ => .success 1, .ok erW, .ok (some "doc1"),
    .ok (some "ext1"), true, true, true, none, 0, true, true, 0⟩

def faultsNoUpdW : Faults := { faultsBaseW with cosmosUpdateOk := false }

def faultsAiFailW : Faults := { faultsBaseW with aiResult := .error "boom" }

/-- Closed witness for C1: a completed job's redelivered message is
skipped. -/
theorem C1_witness :
    workerProcessDocument cfgW worldCompletedW faultsBaseW qmsgW.content =
      (ProcResult.skipped, worldCompletedW) :=
  (C1_idempotency_guard cfgW worldCompletedW faultsBaseW qmsgW [] rfl (by decide) rfl).1

/-- Closed witness for C10: a message whose job record is missing reads
not_found. -/
theorem C10_witness :
    workerGetJobStatus worldMissingW faultsBaseW qmsgW.content.job_id =
      (if faultsBaseW.cosmosReadFails then "error" else "not_found") :=
  (C10_missing_job_guard cfgW worldMissingW faultsBaseW qmsgW []
    rfl (Or.inl ⟨rfl, rfl⟩) rfl).1

/-- Closed witness for C9: with every status write refused, processing
still completes. -/
theorem C9_witness :
    workerProcessDocument cfgW worldPendingW faultsNoUpdW qmsgW.content =
      (ProcResult.completed, worldPendingW) :=
  (C9_status_update_never_aborts cfgW worldPendingW faultsNoUpdW qmsgW [] jobPendingW
    1 erW "doc1" "ext1" rfl rfl rfl rfl rfl rfl rfl rfl rfl rfl).2.2.1

/-- C7: dead-letter routing on fatal failure, evaluated at a failing
input.  The job record is as the enqueue path creates it: status
pending, Cosmos record id job_9f3c assigned by create_processing_job,
distinct from the worker-facing job id job1.  The AI call raises.  The
worker does publish the dead-letter message (original fields plus
error_message, original_queue and retry_count incremented) and does ack
the original message, but its failed-status write comes to nothing: the
worker hands update_data to CosmosService.update_job_status as the
progress parameter, and that method's query by record id
(c.id = @job_id) never matches the job_ record ids create_processing_job
assigns, so it returns False, the worker swallows the raised error, and
the record keeps status pending with no error message — against both the
claim and the spec, which the worker's own update_data assembly and the
job-status API's top-level reads show to be the intent. -/
theorem C7_dead_letter_divergence :
    (processQueue cfgW worldPendingW faultsAiFailW).failedQueue =
      [⟨msgContentW, "Error en AI Orchestrator: boom",
        "document-processing-queue", 1⟩] ∧
    (processQueue cfgW worldPendingW faultsAiFailW).mainQueue = [] ∧
    alGet (processQueue cfgW worldPendingW faultsAiFailW).jobs "job1" =
      some jobPendingW ∧
    jobPendingW.status = "pending" ∧
    jobPendingW.error_message = none := by
  refine ⟨?_, ?_, ?_, rfl, rfl⟩ <;> rfl
